import Mathlib

/-!
Verification of the PetroPy LAS reader (`petropy/las.py`).

This file gives a shallow embedding of the pure core of `Las.__init__`:

* tokenization of raw data lines (`row.strip().split(' ')` + dropping of
  empty tokens),
* the section classifier's per-line state transition (the five boolean
  flags of the source are one exclusive state here),
* resolution of the WRAP flag from the version section,
* wrapped-data reconstruction (depth-marker selection, horizontal
  concatenation through a padded frame, and deletion of the columns that
  are `none` in the first reconstructed row),
* resolution of the unique well id (`Las.uwi`) and of the null sentinel
  (`Las.null`) from the well section.

Python error paths (`raise ValueError`, the unbound `wrapped` local) are
embedded as `Except`/`Option` results.  The float conversions applied by
pandas / `float(...)` after these steps are outside the embedded core:
resolution functions return the chosen string, to which the cast is then
applied.
-/

namespace Petro

/-- The six ASCII characters Python's `str.strip()` removes. -/
def pyIsSpace (c : Char) : Bool :=
  c == ' ' || c == '\t' || c == '\n' || c == '\r' || c == '\x0b' || c == '\x0c'

/-- Python `s.split(sep)` for a one-character separator class: splitting a
character list at every character satisfying `p`, keeping empty pieces
(`'a  b'.split(' ') = ['a', '', 'b']`). -/
def splitOn (p : Char → Bool) : List Char → List (List Char)
  | [] => [[]]
  | c :: t =>
    match splitOn p t with
    | [] => [[c]]
    | r :: rs => if p c then [] :: r :: rs else (c :: r) :: rs

/-- Split at every character satisfying `p` and drop the empty pieces, as
`filter(lambda x: x != '', row.split(' '))` does (las.py line 148). -/
def tokensOn (p : Char → Bool) (l : List Char) : List (List Char) :=
  (splitOn p l).filter (fun t => t ≠ [])

/-- Remove trailing characters satisfying `p`. -/
def rstripP (p : Char → Bool) (l : List Char) : List Char :=
  ((l.reverse.dropWhile p).reverse)

/-- Python `str.strip()`: remove leading and trailing whitespace. -/
def pyStrip (l : List Char) : List Char :=
  rstripP pyIsSpace (l.dropWhile pyIsSpace)

/-- One raw data line to its token list:
`row.strip().split(' ')` with empty strings filtered out
(las.py lines 146-148).  Note the split separator is the single space
character, not general whitespace. -/
def cleanRow (s : String) : List (List Char) :=
  tokensOn (fun c => c == ' ') (pyStrip s.data)

/-- Tokenization as the specification paints it: split the raw line on ANY
whitespace character and discard empty tokens.  Kept for comparison with
`cleanRow`, which is what the source actually does. -/
def wsTokens (s : String) : List (List Char) :=
  tokensOn pyIsSpace s.data

/-- Modelled from the spec: the `Parameter` record produced by the header
line parser (class `Parameter` of `log.py`, which is not part of the
sources here).  `las.py` reads the fields `name`, `value`, `des`
(description) and `right_value` (the secondary value candidate); `unit`
completes the record as §3 of the specification lists it. -/
structure Parameter where
  name : String
  unit : String
  value : String
  des : String
  right_value : String
deriving DecidableEq, Repr

/-- A header section as `Las.__init__` accumulates it: the parameters in
file order.  The Python pair (name list, name → parameter dict keyed by
`paramater.name`, last insertion winning) is recovered by `findParam`. -/
abbrev Sect := List Parameter

/-- Dictionary lookup `self.xxx_values[k]` combined with the membership
test `k in self.xxx_parameters`: the last parameter of the section whose
mnemonic equals `k`, if any.  Lookup is case-sensitive. -/
def findParam (sec : Sect) (k : String) : Option Parameter :=
  (sec.filter (fun p => p.name == k)).getLast?

/-- Python's substring test `pat in s`. -/
def containsStr (pat s : String) : Bool :=
  decide (pat.data <:+: s.data)

/-- Python `line.upper()` on the character list (ASCII case mapping). -/
def upper (l : List Char) : List Char :=
  l.map Char.toUpper

/-- The classifier state: the five mutually exclusive booleans
`VERSION/WELL/PARAMETER/CURVE/DATA` of las.py lines 75-79 folded into one
exclusive state, with `start` for all-false. -/
inductive SecState
  | start
  | version
  | well
  | param
  | curve
  | data
deriving DecidableEq, Repr

/-- One iteration of the classifier loop's flag updates
(las.py lines 82-114): comment lines (first character `#`) leave the
state unchanged, a line whose upper-cased text contains a section tag
moves to that section's state — `~A` to the data state — and any other
line leaves the state unchanged (it is consumed as a parameter line).
Lines come from `readlines` and are never empty; `headD` supplies a
harmless default. -/
def stepState (st : SecState) (line : List Char) : SecState :=
  if line.headD ' ' == '#' then st
  else if "~VERSION".data <:+: upper line then .version
  else if "~WELL".data <:+: upper line then .well
  else if "~PARAMETER".data <:+: upper line then .param
  else if "~CURVE".data <:+: upper line then .curve
  else if "~A".data <:+: upper line then .data
  else st

/-- Resolution of the wrap flag (las.py lines 152-163): only when the
version section holds a `WRAP` mnemonic is `wrapped` assigned — `true`
when `'YES'` occurs in the value, else in the secondary value, else in
the description, `false` otherwise.  Without a `WRAP` mnemonic the Python
local `wrapped` stays unbound and line 165 raises: that is `none` here. -/
def resolveWrapped (ver : Sect) : Option Bool :=
  match findParam ver "WRAP" with
  | none => none
  | some p =>
    if containsStr "YES" p.value then some true
    else if containsStr "YES" p.right_value then some true
    else if containsStr "YES" p.des then some true
    else some false

/-- Every second element of a list, starting with the first
(`arr[::2]`, las.py line 181). -/
def everySecond {α : Type u} : List α → List α
  | [] => []
  | [a] => [a]
  | a :: _ :: t => a :: everySecond t

/-- The value of `np.where(rows_len_arr == 1)[0]` (las.py lines 172/181): the indices
of the lines holding exactly one token, in increasing order. -/
def singleIdxs (counts : List Nat) : List Nat :=
  (List.range counts.length).filter (fun i => decide (counts.getD i 0 = 1))

/-- Width of the padded frame `pd.DataFrame(cleaned_data)`: the longest
token count of any line. -/
def maxLen {α : Type u} (rows : List (List α)) : Nat :=
  (rows.map List.length).foldr max 0

/-- One line of the padded frame: the tokens, then `none` up to width `w`
(pandas fills the ragged tail of a row with `None`). -/
def pad {α : Type u} (w : Nat) (r : List α) : List (Option α) :=
  r.map some ++ List.replicate (w - r.length) none

/-- Keep the positions of `r` whose flag in `keep` is `true`
(the effect of `np.delete(_, deleted_columns, 1)` on one row). -/
def applyKeep {α : Type u} (keep : List Bool) (r : List (Option α)) : List (Option α) :=
  (keep.zip r).filterMap (fun q => if q.1 then some q.2 else none)

/-- las.py lines 190-194: collect the columns whose value in the FIRST
reconstructed row is `None` and delete them from every row. -/
def dropNoneCols {α : Type u} : List (List (Option α)) → List (List (Option α))
  | [] => []
  | r0 :: rs => (r0 :: rs).map (applyKeep (r0.map Option.isSome))

/-- Failures of the wrapped branch: the explicit
`ValueError('Inconsistent values for wrapped data.')`, and the Python
`IndexError` raised when `depth_indexes` has fewer than two entries or
`data_df.iloc[depth_indexes + d]` indexes past the last line. -/
inductive WrapErr
  | inconsistent
  | indexError
deriving DecidableEq, Repr

/-- The shared body of the two wrapped branches (las.py lines 172-176 and
181-185) for a given depth-marker index list `D`: stack the marker lines,
then for each offset `d` in `range(D[0] + 1, D[1])` append, row-wise, the
padded frame lines at positions `D + d`. -/
def buildWrapped {α : Type u} (rows : List (List α)) (D : List Nat) :
    Except WrapErr (List (List (Option α))) :=
  match D with
  | d0 :: d1 :: rest =>
    if (List.range' (d0 + 1) (d1 - (d0 + 1))).all
        (fun d => (d0 :: d1 :: rest).all (fun mk => decide (mk + d < rows.length))) then
      .ok ((d0 :: d1 :: rest).map (fun mk =>
        (rows.getD mk []).map some ++
          ((List.range' (d0 + 1) (d1 - (d0 + 1))).map
            (fun d => pad (maxLen rows) (rows.getD (mk + d) []))).flatten))
    else .error .indexError
  | _ => .error .indexError

/-- The depth-marker indices each branch feeds to `buildWrapped`: with
three distinct token counts every single-token line, with two distinct
counts every second single-token line starting from the first. -/
def codeMarkers (counts : List Nat) : List Nat :=
  if counts.dedup.length = 3 then singleIdxs counts
  else everySecond (singleIdxs counts)

/-- The wrapped reconstruction (las.py lines 165-194): branch on the
number of distinct token counts, build the concatenated rows, and delete
the columns that are `None` in the first row. -/
def reconstructWrapped {α : Type u} (rows : List (List α)) :
    Except WrapErr (List (List (Option α))) :=
  let counts := rows.map List.length
  if counts.dedup.length = 3 then
    (buildWrapped rows (singleIdxs counts)).map dropNoneCols
  else if counts.dedup.length = 2 then
    (buildWrapped rows (everySecond (singleIdxs counts))).map dropNoneCols
  else
    .error .inconsistent

/-- Failure of the data-block stage: the unbound local `wrapped`
(las.py line 165, when the version section has no `WRAP` mnemonic), or a
failure inside the wrapped reconstruction. -/
inductive BuildErr
  | unboundWrap
  | wrap (e : WrapErr)
deriving DecidableEq, Repr

/-- The data-block pipeline of `Las.__init__` up to `curve_df`:
tokenize every raw line, resolve the wrap flag, and either reconstruct
(wrap on) or keep one logical row per line (wrap off).  Cells are
`Option`s because the padded frame introduces `None` cells; in the
unwrapped branch every cell is `some`. -/
def buildTable (ver : Sect) (dataLines : List String) :
    Except BuildErr (List (List (Option (List Char)))) :=
  let cleaned := dataLines.map cleanRow
  match resolveWrapped ver with
  | none => .error .unboundWrap
  | some true =>
    match reconstructWrapped cleaned with
    | .ok m => .ok m
    | .error e => .error (.wrap e)
  | some false => .ok (cleaned.map (fun r => r.map some))

/-- Python `s.replace('-', '')` (las.py lines 215/217/219). -/
def stripHyphens (s : String) : String :=
  ⟨s.data.filter (fun c => c ≠ '-')⟩

/-- Python `s.upper()` on strings. -/
def upperStr (s : String) : String :=
  ⟨upper s.data⟩

/-- The acceptance test a UWI candidate must pass (las.py lines 214-218):
its upper-cased text contains neither `WELL` nor `UNIQUE`, and it is
non-empty. -/
def acceptUwi (s : String) : Bool :=
  !(containsStr "WELL" (upperStr s)) && !(containsStr "UNIQUE" (upperStr s))
    && decide (0 < s.length)

/-- The candidate-acceptance-and-hyphen-stripping step applied to one
candidate string. -/
def uwiStep (s : String) : Option String :=
  if acceptUwi s then some (stripHyphens s) else none

/-- The `Las.uwi` resolution (las.py lines 202-223): pick the parameter of
the first present mnemonic among `UWI`, `uwi`, `API`, `api`; then accept
the first of value, description, secondary value passing `acceptUwi`,
hyphens stripped; `none` when no mnemonic or no candidate qualifies. -/
def resolveUwi (well : Sect) : Option String :=
  match findParam well "UWI" <|> findParam well "uwi"
      <|> findParam well "API" <|> findParam well "api" with
  | none => none
  | some p =>
    if acceptUwi p.value then some (stripHyphens p.value)
    else if acceptUwi p.des then some (stripHyphens p.des)
    else if acceptUwi p.right_value then some (stripHyphens p.right_value)
    else none

/-- UWI resolution as §4.4 of the specification words it: first present
mnemonic in priority order, first candidate among value, description,
secondary value that is non-empty and whose upper-cased text contains
neither `WELL` nor `UNIQUE`, then hyphens stripped. -/
def uwiSpec (well : Sect) : Option String :=
  ((["UWI", "uwi", "API", "api"].filterMap (findParam well)).head?).bind
    (fun p =>
      ([p.value, p.des, p.right_value].find?
        (fun s => decide (0 < s.length)
          && !(containsStr "WELL" (upperStr s))
          && !(containsStr "UNIQUE" (upperStr s)))).map stripHyphens)

/-- The `Las.null` resolution (las.py lines 225-245): under the `NULL`
mnemonic — else the `null` mnemonic — return the value if non-empty, else
the secondary value if non-empty; every other case raises the
missing-null `ValueError` (`.error ()`).  The returned string is what the
source then feeds to `float(...)`. -/
def resolveNull (well : Sect) : Except Unit String :=
  match findParam well "NULL" with
  | some p =>
    if 0 < p.value.length then .ok p.value
    else if 0 < p.right_value.length then .ok p.right_value
    else .error ()
  | none =>
    match findParam well "null" with
    | some p =>
      if 0 < p.value.length then .ok p.value
      else if 0 < p.right_value.length then .ok p.right_value
      else .error ()
    | none => .error ()

/-- Null resolution as §4.4 of the specification words it: the first
present of the mnemonics `NULL`, `null`; from it the first non-empty of
value, secondary value; failure otherwise. -/
def nullSpec (well : Sect) : Except Unit String :=
  match findParam well "NULL" <|> findParam well "null" with
  | none => .error ()
  | some p =>
    match [p.value, p.right_value].find? (fun s => decide (0 < s.length)) with
    | some s => .ok s
    | none => .error ()

/-! ### Concrete inputs used by witnesses and counterexamples -/

/-- A version section declaring wrapped data. -/
def cWrapYes : Sect := [⟨"WRAP", "", "YES", "wrapped", ""⟩]

/-- A version section declaring unwrapped data. -/
def cWrapNo : Sect := [⟨"WRAP", "", "NO", "Single line per depth", ""⟩]

/-- A data block whose lines all carry two tokens: one distinct token
count, outside both supported wrapped layouts. -/
def cFlatLines : List String := ["1 2", "3 4"]

/-- A well-formed unwrapped three-column data block. -/
def cUnwrapLines : List String := ["100.0 12.3 45.6", "100.5 13.1 46.0"]

/-- A wrapped block with the alternating two-class layout: depth marker,
wide line, single-token continuation, repeated. -/
def cAltLines : List String := ["10", "a b", "c", "20", "d e", "f"]

/-- A wrapped block with three distinct token counts whose blocks do not
start at line 0 and are unevenly shaped. -/
def cMixLines : List String := ["a b", "10", "c d e", "20", "f g h", "x y z"]

/-- A uniform wrapped block with three distinct token counts: markers at
lines 0 and 3, each followed by the same two continuation shapes. -/
def cUniformLines : List String := ["10", "1 2", "3 4 5", "20", "6 7", "8 9 10"]

/-- The token matrix of `cUniformLines`. -/
def cUniformRows : List (List (List Char)) := cUniformLines.map cleanRow

/-- A well section whose `UWI` value hides the word `WELL` behind a
hyphen. -/
def cUwiHidden : Sect := [⟨"UWI", "", "WE-LL", "", ""⟩]

/-- A well section with an ordinary hyphenated `UWI` value. -/
def cUwiGood : Sect := [⟨"UWI", "", "42-123", "", ""⟩]

/-- A data line whose two fields are separated by a tab, not a space. -/
def cTabLine : String := "1.0\t2.0"

/-- A header line carrying an `~APIINFO` style tag. -/
def cApiLine : List Char := "~APIINFO\n".data

/-- The token matrix of `cAltLines`. -/
def cAltRows : List (List (List Char)) := cAltLines.map cleanRow

/-- The token matrix of `cMixLines`. -/
def cMixRows : List (List (List Char)) := cMixLines.map cleanRow

/-- The matrix the wrapped reconstruction produces on `cAltRows`. -/
def mC1 : List (List (Option (List Char))) :=
  [[some ['1', '0'], some ['a'], some ['b'], some ['c']],
   [some ['2', '0'], some ['d'], some ['e'], some ['f']]]

/-- The matrix the wrapped reconstruction produces on `cMixRows`. -/
def mC2mix : List (List (Option (List Char))) :=
  [[some ['1', '0'], some ['2', '0']],
   [some ['2', '0'], some ['x']]]

/-- The matrix the wrapped reconstruction produces on `cUniformRows`. -/
def mC2uniform : List (List (Option (List Char))) :=
  [[some ['1', '0'], some ['1'], some ['2'], some ['3'], some ['4'], some ['5']],
   [some ['2', '0'], some ['6'], some ['7'], some ['8'], some ['9'], some ['1', '0']]]

/-! ### Claim C3: unsupported wrap layouts raise the inconsistency error -/

/-- C3: with wrap enabled, whenever the data lines show a number of
distinct token counts other than 2 or 3, the parse fails with the
inconsistent-wrap-layout `ValueError` and no table is produced. -/
theorem C3_inconsistent_wrap_layout (ver : Sect) (dataLines : List String)
    (hw : resolveWrapped ver = some true)
    (h2 : ((dataLines.map cleanRow).map List.length).dedup.length ≠ 2)
    (h3 : ((dataLines.map cleanRow).map List.length).dedup.length ≠ 3) :
    buildTable ver dataLines = .error (.wrap .inconsistent) := by
  simp only [buildTable, hw]
  simp only [reconstructWrapped, if_neg h2, if_neg h3]

/-- Witness for C3 on a wrapped block whose lines all have two tokens
(one distinct count). -/
theorem C3_witness :
    buildTable cWrapYes cFlatLines = .error (.wrap .inconsistent) :=
  C3_inconsistent_wrap_layout cWrapYes cFlatLines rfl (by decide) (by decide)

/-! ### Claim C10: a missing WRAP mnemonic fails the parse unconditionally -/

/-- C10: when the version section holds no `WRAP` mnemonic, the data
stage never runs in unwrapped mode: the wrap flag is read before being
assigned (Python unbound local), so the parse fails for every data
block — well-formed or not. -/
theorem C10_missing_wrap_unbound (ver : Sect) (dataLines : List String)
    (h : findParam ver "WRAP" = none) :
    buildTable ver dataLines = .error .unboundWrap := by
  simp only [buildTable, resolveWrapped, h]

/-- Witness for C10: an empty version section and a perfectly well-formed
one-line-per-depth data block still fail. -/
theorem C10_witness :
    buildTable [] ["100.0 12.3 45.6", "100.5 13.1 46.0"] = .error .unboundWrap :=
  C10_missing_wrap_unbound [] ["100.0 12.3 45.6", "100.5 13.1 46.0"] rfl

/-! ### Claim C4: unwrapped reconstruction is one row per line -/

/-- C4: with wrap disabled, reconstruction yields exactly one logical row
per raw data line, and when every line carries as many tokens as the
curve section declares columns, every row has that length. -/
theorem C4_unwrapped_rows (ver : Sect) (dataLines : List String) (cols : Nat)
    (hw : resolveWrapped ver = some false)
    (hlen : ∀ l ∈ dataLines, (cleanRow l).length = cols) :
    ∃ m, buildTable ver dataLines = .ok m ∧ m.length = dataLines.length ∧
      ∀ r ∈ m, r.length = cols := by
  refine ⟨(dataLines.map cleanRow).map (fun r => r.map some), ?_, ?_, ?_⟩
  · simp only [buildTable, hw]
  · simp [List.length_map]
  · intro r hr
    simp only [List.mem_map] at hr
    obtain ⟨t, ht, rfl⟩ := hr
    obtain ⟨l, hl, rfl⟩ := ht
    simp [List.length_map, hlen l hl]

/-- Witness for C4 on a two-line three-column unwrapped block. -/
theorem C4_witness :
    ∃ m, buildTable cWrapNo cUnwrapLines = .ok m ∧
      m.length = cUnwrapLines.length ∧ ∀ r ∈ m, r.length = 3 :=
  C4_unwrapped_rows cWrapNo cUnwrapLines 3 rfl (by decide)

/-! ### Claim C9: substring tag matching sends `~APIINFO` to the data state -/

/-- C9: tag matching is substring-based on the upper-cased line and the
data tag is the two characters `~A`; a non-comment line containing
`~APIINFO` (and none of the four header tags) therefore moves the
classifier to the data state, from any state. -/
theorem C9_apiinfo_is_data (st : SecState) (line : List Char)
    (hc : line.headD ' ' ≠ '#')
    (h : "~APIINFO".data <:+: upper line)
    (h1 : ¬ ("~VERSION".data <:+: upper line))
    (h2 : ¬ ("~WELL".data <:+: upper line))
    (h3 : ¬ ("~PARAMETER".data <:+: upper line))
    (h4 : ¬ ("~CURVE".data <:+: upper line)) :
    stepState st line = .data := by
  have ha : "~A".data <:+: upper line :=
    List.IsInfix.trans (List.IsPrefix.isInfix (by decide)) h
  unfold stepState
  rw [if_neg (by simpa using hc), if_neg h1, if_neg h2, if_neg h3, if_neg h4,
    if_pos ha]

/-- Witness for C9 at the concrete line `~APIINFO`. -/
theorem C9_witness : stepState .well cApiLine = .data :=
  C9_apiinfo_is_data .well cApiLine (by decide) (by decide) (by decide)
    (by decide) (by decide) (by decide)

/-! ### Helper lemmas on strings and splitting -/

lemma str_eq_empty_iff (s : String) : s = "" ↔ s.length = 0 := by
  constructor
  · rintro rfl; rfl
  · intro h
    apply String.ext
    exact List.length_eq_zero.mp h

lemma splitOn_ne_nil (p : Char → Bool) (l : List Char) : splitOn p l ≠ [] := by
  cases l with
  | nil => simp [splitOn]
  | cons c t =>
    simp only [splitOn]
    rcases h : splitOn p t with _ | ⟨r, rs⟩
    · simp
    · cases hpc : p c <;> simp [hpc]

lemma splitOn_cons (p : Char → Bool) (a : Char) (t : List Char) :
    ∃ r rs, splitOn p t = r :: rs ∧
      splitOn p (a :: t) = if p a then [] :: r :: rs else (a :: r) :: rs := by
  rcases h : splitOn p t with _ | ⟨r, rs⟩
  · exact absurd h (splitOn_ne_nil p t)
  · exact ⟨r, rs, rfl, by simp only [splitOn, h]⟩

lemma splitOn_append_sep (p : Char → Bool) (c : Char) (hc : p c = true)
    (l : List Char) : splitOn p (l ++ [c]) = splitOn p l ++ [[]] := by
  induction l with
  | nil => simp [splitOn, hc]
  | cons a t ih =>
    obtain ⟨r, rs, hrt, hat⟩ := splitOn_cons p a t
    obtain ⟨r', rs', hrt', hat'⟩ := splitOn_cons p a (t ++ [c])
    rw [List.cons_append, hat', hat]
    rw [ih, hrt] at hrt'
    obtain ⟨rfl, rfl⟩ : r' = r ∧ rs' = rs ++ [[]] := by
      constructor <;> [skip; skip] <;> injection hrt' with h1 h2 <;> simp_all
    cases hpa : p a <;> simp [hpa]

lemma tokensOn_append_sep {p : Char → Bool} {c : Char} (hc : p c = true)
    (l : List Char) : tokensOn p (l ++ [c]) = tokensOn p l := by
  simp [tokensOn, splitOn_append_sep p c hc, List.filter_append]

lemma tokensOn_cons_sep {p : Char → Bool} {a : Char} (ha : p a = true)
    (t : List Char) : tokensOn p (a :: t) = tokensOn p t := by
  obtain ⟨r, rs, hrt, hat⟩ := splitOn_cons p a t
  simp [tokensOn, hat, ha, hrt]

lemma tokensOn_dropWhile (p : Char → Bool) (l : List Char) :
    tokensOn p (l.dropWhile p) = tokensOn p l := by
  induction l with
  | nil => rfl
  | cons a t ih =>
    cases hpa : p a
    · simp [List.dropWhile_cons, hpa]
    · rw [List.dropWhile_cons, if_pos hpa, ih, tokensOn_cons_sep hpa]

lemma tokensOn_rstrip (p : Char → Bool) (l : List Char) :
    tokensOn p (rstripP p l) = tokensOn p l := by
  have main : ∀ lr : List Char,
      tokensOn p ((lr.dropWhile p).reverse) = tokensOn p lr.reverse := by
    intro lr
    induction lr with
    | nil => rfl
    | cons c t ih =>
      cases hpc : p c
      · simp [List.dropWhile_cons, hpc]
      · rw [List.dropWhile_cons, if_pos hpc, ih, List.reverse_cons,
          tokensOn_append_sep hpc]
  have h := main l.reverse
  rw [List.reverse_reverse] at h
  exact h

lemma dropWhile_congr {p q : Char → Bool} {l : List Char}
    (h : ∀ c ∈ l, p c = q c) : l.dropWhile p = l.dropWhile q := by
  induction l with
  | nil => rfl
  | cons a t ih =>
    have ha := h a (by simp)
    rw [List.dropWhile_cons, List.dropWhile_cons, ha,
      ih (fun c hc => h c (by simp [hc]))]

lemma rstripP_congr {p q : Char → Bool} {l : List Char}
    (h : ∀ c ∈ l, p c = q c) : rstripP p l = rstripP q l := by
  unfold rstripP
  rw [dropWhile_congr (fun c hc => h c (List.mem_reverse.mp hc))]

lemma splitOn_congr {p q : Char → Bool} {l : List Char}
    (h : ∀ c ∈ l, p c = q c) : splitOn p l = splitOn q l := by
  induction l with
  | nil => rfl
  | cons a t ih =>
    obtain ⟨r, rs, hrt, hat⟩ := splitOn_cons p a t
    obtain ⟨r', rs', hrt', hat'⟩ := splitOn_cons q a t
    have ht : splitOn p t = splitOn q t := ih (fun c hc => h c (by simp [hc]))
    rw [ht, hrt'] at hrt
    injection hrt with h1 h2
    subst h1; subst h2
    rw [hat, hat', h a (by simp)]

lemma tokensOn_congr {p q : Char → Bool} {l : List Char}
    (h : ∀ c ∈ l, p c = q c) : tokensOn p l = tokensOn q l := by
  unfold tokensOn
  rw [splitOn_congr h]

/-! ### Claim C5: tokenization splits on spaces, not on all whitespace -/

/-- Counterexample for C5: a line whose two fields are separated by a tab
is one single token for the source's `split(' ')`, while
whitespace-splitting (the claim) would give two fields. -/
theorem C5_counterexample :
    (cleanRow cTabLine).length = 1 ∧ (wsTokens cTabLine).length = 2 := by decide

/-- C5 amended: the source tokenizes by stripping surrounding whitespace
and splitting on the space character only, discarding empty tokens; this
coincides with splitting on arbitrary whitespace exactly on lines whose
whitespace characters are all plain spaces. -/
theorem C5_amended_space_split (s : String)
    (h : ∀ c ∈ s.data, pyIsSpace c = true → c = ' ') :
    cleanRow s = wsTokens s := by
  have hpq : ∀ c ∈ s.data, pyIsSpace c = (c == ' ') := by
    intro c hc
    cases hpc : pyIsSpace c
    · cases hce : (c == ' ')
      · rfl
      · have hc' : c = ' ' := by simpa using hce
        rw [hc'] at hpc
        exact absurd hpc (by decide)
    · have hc' := h c hc hpc
      simp [hc']
  unfold cleanRow wsTokens pyStrip
  rw [dropWhile_congr hpq]
  rw [rstripP_congr (fun c hc =>
    hpq c ((List.dropWhile_sublist (fun c => c == ' ')).subset hc))]
  rw [tokensOn_rstrip, tokensOn_dropWhile]
  exact (tokensOn_congr hpq).symm

/-- Witness for the amended C5 on an all-space line. -/
theorem C5_witness : cleanRow " 1.0 2.0 " = wsTokens " 1.0 2.0 " :=
  C5_amended_space_split " 1.0 2.0 " (by decide)

/-! ### Claim C6: null-sentinel resolution -/

/-- C6: null resolution looks `NULL` up before `null` (case-sensitive),
takes the first non-empty of value and secondary value of the first
mnemonic present — this is exactly `nullSpec`, the spec's wording — and
raises the missing-null error precisely when neither mnemonic is present
or the one found has both candidate fields empty.  (The successful string
is afterwards fed to `float(...)`, whose own failure is a different
error.) -/
theorem C6_null_resolution (well : Sect) :
    resolveNull well = nullSpec well ∧
    (resolveNull well = .error () ↔
      (findParam well "NULL" = none ∧ findParam well "null" = none) ∨
      ∃ p, (findParam well "NULL" <|> findParam well "null") = some p ∧
        p.value = "" ∧ p.right_value = "") := by
  rcases hN : findParam well "NULL" with _ | p
  · rcases hn : findParam well "null" with _ | q
    · simp [resolveNull, nullSpec, hN, hn]
    · by_cases hv : 0 < q.value.length
      · constructor
        · simp [resolveNull, nullSpec, hN, hn, hv, List.find?]
        · simp [resolveNull, hN, hn, hv, str_eq_empty_iff]
          omega
      · by_cases hr : 0 < q.right_value.length
        · constructor
          · simp [resolveNull, nullSpec, hN, hn, hv, hr, List.find?]
          · simp [resolveNull, hN, hn, hv, hr, str_eq_empty_iff]
            omega
        · constructor
          · simp [resolveNull, nullSpec, hN, hn, hv, hr, List.find?]
          · simp [resolveNull, hN, hn, hv, hr, str_eq_empty_iff]
            omega
  · by_cases hv : 0 < p.value.length
    · constructor
      · simp [resolveNull, nullSpec, hN, hv, List.find?]
      · simp [resolveNull, hN, hv, str_eq_empty_iff]
        omega
    · by_cases hr : 0 < p.right_value.length
      · constructor
        · simp [resolveNull, nullSpec, hN, hv, hr, List.find?]
        · simp [resolveNull, hN, hv, hr, str_eq_empty_iff]
          omega
      · constructor
        · simp [resolveNull, nullSpec, hN, hv, hr, List.find?]
        · simp [resolveNull, hN, hv, hr, str_eq_empty_iff]
          omega

/-! ### Claim C7: unique-well-id resolution -/

lemma acceptUwi_eq (s : String) :
    (decide (0 < s.length) && !(containsStr "WELL" (upperStr s))
      && !(containsStr "UNIQUE" (upperStr s))) = acceptUwi s := by
  unfold acceptUwi
  cases containsStr "WELL" (upperStr s) <;>
    cases containsStr "UNIQUE" (upperStr s) <;>
    cases decide (0 < s.length) <;> rfl

lemma uwiPick_eq (p : Parameter) :
    (if acceptUwi p.value then some (stripHyphens p.value)
      else if acceptUwi p.des then some (stripHyphens p.des)
      else if acceptUwi p.right_value then some (stripHyphens p.right_value)
      else none)
    = ([p.value, p.des, p.right_value].find?
        (fun s => decide (0 < s.length)
          && !(containsStr "WELL" (upperStr s))
          && !(containsStr "UNIQUE" (upperStr s)))).map stripHyphens := by
  simp only [List.find?, acceptUwi_eq]
  cases h1 : acceptUwi p.value <;> cases h2 : acceptUwi p.des <;>
    cases h3 : acceptUwi p.right_value <;> simp [h1, h2, h3]

/-- C7: unique-well-id resolution — first present mnemonic among `UWI`,
`uwi`, `API`, `api` (no case folding), then the first of value,
description, secondary value that is non-empty and whose upper-cased text
contains neither `WELL` nor `UNIQUE`, hyphens stripped, silently unset
when nothing qualifies — coincides with `uwiSpec`, the spec's wording,
on every well section. -/
theorem C7_uwi_resolution (well : Sect) : resolveUwi well = uwiSpec well := by
  unfold resolveUwi uwiSpec
  rcases h1 : findParam well "UWI" with _ | p
  · rcases h2 : findParam well "uwi" with _ | p
    · rcases h3 : findParam well "API" with _ | p
      · rcases h4 : findParam well "api" with _ | p
        · simp [h1, h2, h3, h4, List.filterMap]
        · simp only [h1, h2, h3, h4, List.filterMap, Option.none_orElse,
            List.head?_cons, Option.some_bind]
          exact uwiPick_eq p
      · simp only [h1, h2, h3, List.filterMap, Option.none_orElse,
          Option.some_orElse, List.head?_cons, Option.some_bind]
        exact uwiPick_eq p
    · simp only [h1, h2, List.filterMap, Option.none_orElse,
        Option.some_orElse, List.head?_cons, Option.some_bind]
      exact uwiPick_eq p
  · simp only [h1, List.filterMap, Option.some_orElse, List.head?_cons,
      Option.some_bind]
    exact uwiPick_eq p

/-! ### Claim C8: UWI resolution is not idempotent in general -/

lemma stripHyphens_idem (s : String) :
    stripHyphens (stripHyphens s) = stripHyphens s := by
  unfold stripHyphens
  apply congrArg
  simp [List.filter_filter]

/-- Counterexample for C8: from the value `WE-LL` resolution produces
`WELL`, but feeding `WELL` back through the acceptance-and-stripping step
rejects it (its upper-cased text now contains `WELL`), so the step does
not return the same string. -/
theorem C8_counterexample :
    resolveUwi cUwiHidden = some "WELL" ∧ uwiStep "WELL" = none := by
  constructor <;> decide

/-- C8 amended: a resolved unique well id is always already hyphen-free,
and the acceptance-and-stripping step maps it to itself whenever it still
passes the acceptance test (which `WE-LL`-style values and all-hyphen
values can fail). -/
theorem C8_amended_idempotent (well : Sect) (s : String)
    (h : resolveUwi well = some s) :
    stripHyphens s = s ∧ (acceptUwi s = true → uwiStep s = some s) := by
  have hs : ∃ c, s = stripHyphens c := by
    unfold resolveUwi at h
    rcases hp : (findParam well "UWI" <|> findParam well "uwi"
        <|> findParam well "API" <|> findParam well "api") with _ | p
    · rw [hp] at h
      exact absurd h (by simp)
    · rw [hp] at h
      dsimp only at h
      split_ifs at h with hv hd hr
      · exact ⟨p.value, by injection h with h'; exact h'.symm⟩
      · exact ⟨p.des, by injection h with h'; exact h'.symm⟩
      · exact ⟨p.right_value, by injection h with h'; exact h'.symm⟩
  obtain ⟨c, rfl⟩ := hs
  refine ⟨stripHyphens_idem c, fun ha => ?_⟩
  simp [uwiStep, ha, stripHyphens_idem c]

/-- Witness for the amended C8 on a hyphenated numeric UWI. -/
theorem C8_witness :
    stripHyphens "42123" = "42123" ∧
      (acceptUwi "42123" = true → uwiStep "42123" = some "42123") :=
  C8_amended_idempotent cUwiGood "42123" (by decide)

/-! ### Lemmas on the wrapped reconstruction -/

lemma everySecond_getElem? {α : Type u} :
    ∀ (l : List α) (i : Nat), (everySecond l)[i]? = l[2 * i]?
  | [], i => by simp [everySecond]
  | [a], 0 => by simp [everySecond]
  | [a], (i + 1) => by
    rw [show 2 * (i + 1) = 2 * i + 1 + 1 by omega]
    simp [everySecond]
  | a :: b :: t, 0 => by simp [everySecond]
  | a :: b :: t, (i + 1) => by
    have ih := everySecond_getElem? t i
    rw [show 2 * (i + 1) = 2 * i + 1 + 1 by omega]
    simp only [everySecond, List.getElem?_cons_succ]
    exact ih

lemma everySecond_length {α : Type u} :
    ∀ l : List α, (everySecond l).length = (l.length + 1) / 2
  | [] => by
    simp only [everySecond, List.length_nil]
  | [_] => by
    simp only [everySecond, List.length_cons, List.length_nil]
  | _ :: _ :: t => by
    have ih := everySecond_length t
    simp only [everySecond, List.length_cons, ih]
    omega

lemma everySecond_sublist {α : Type u} :
    ∀ l : List α, (everySecond l).Sublist l
  | [] => List.Sublist.refl []
  | [a] => List.Sublist.refl [a]
  | a :: b :: t => List.Sublist.cons₂ a (List.Sublist.cons b (everySecond_sublist t))

lemma singleIdxs_length (c : List Nat) :
    (singleIdxs c).length = c.countP (fun x => decide (x = 1)) := by
  induction c with
  | nil => rfl
  | cons a t ih =>
    unfold singleIdxs at ih ⊢
    rw [List.length_cons, List.range_succ_eq_map, List.filter_cons,
      List.filter_map]
    have hfun : ((fun i => decide ((a :: t).getD i 0 = 1)) ∘ Nat.succ)
        = (fun i => decide (t.getD i 0 = 1)) := by
      funext i
      simp [Function.comp, List.getD_cons_succ]
    rw [hfun]
    simp only [List.getD_cons_zero, List.countP_cons, List.length_map]
    have ih' : (List.filter (fun i => decide (t[i]?.getD 0 = 1))
          (List.range t.length)).length
        = List.countP (fun x => decide (x = 1)) t := by
      simpa [List.getD_eq_getElem?_getD] using ih
    by_cases ha : a = 1 <;> simp [ha, ih']

lemma singleIdxs_mem {c : List Nat} {k : Nat} (h : k ∈ singleIdxs c) :
    k < c.length ∧ c.getD k 0 = 1 := by
  unfold singleIdxs at h
  obtain ⟨hr, hp⟩ := List.mem_filter.mp h
  exact ⟨List.mem_range.mp hr, of_decide_eq_true hp⟩

lemma codeMarkers_subset_singleIdxs {c : List Nat} {k : Nat}
    (h : k ∈ codeMarkers c) : k ∈ singleIdxs c := by
  unfold codeMarkers at h
  split at h
  · exact h
  · exact (everySecond_sublist (singleIdxs c)).subset h

lemma getD_map_length {α : Type u} (rows : List (List α)) (k : Nat) :
    (rows.map List.length).getD k 0 = (rows.getD k []).length := by
  rw [List.getD_eq_getElem?_getD, List.getD_eq_getElem?_getD,
    List.getElem?_map]
  cases rows[k]? <;> simp

lemma le_foldr_max {a : Nat} {l : List Nat} (h : a ∈ l) :
    a ≤ l.foldr max 0 := by
  induction l with
  | nil => cases h
  | cons b t ih =>
    rcases List.mem_cons.mp h with rfl | ht
    · exact Nat.le_max_left _ _
    · exact Nat.le_trans (ih ht) (Nat.le_max_right _ _)

lemma getD_length_le_maxLen {α : Type u} (rows : List (List α)) (k : Nat) :
    (rows.getD k []).length ≤ maxLen rows := by
  rw [← getD_map_length]
  rw [List.getD_eq_getElem?_getD]
  rcases h : (rows.map List.length)[k]? with _ | n
  · exact Nat.zero_le _
  · exact le_foldr_max (List.getElem?_mem h)

lemma buildWrapped_ok {α : Type u} {rows : List (List α)} {D : List Nat}
    {m : List (List (Option α))} (h : buildWrapped rows D = .ok m) :
    ∃ d0 d1 rest, D = d0 :: d1 :: rest ∧
      (∀ d ∈ List.range' (d0 + 1) (d1 - (d0 + 1)), ∀ mk ∈ D, mk + d < rows.length) ∧
      m = D.map (fun mk =>
        (rows.getD mk []).map some ++
          ((List.range' (d0 + 1) (d1 - (d0 + 1))).map
            (fun d => pad (maxLen rows) (rows.getD (mk + d) []))).flatten) := by
  rcases D with _ | ⟨d0, D⟩
  · simp [buildWrapped] at h
  rcases D with _ | ⟨d1, rest⟩
  · simp [buildWrapped] at h
  simp only [buildWrapped] at h
  split at h
  case isTrue hb =>
    injection h with h'
    refine ⟨d0, d1, rest, rfl, ?_, h'.symm⟩
    intro d hd mk hmk
    have h1 := (List.all_eq_true.mp hb) d hd
    have h2 := (List.all_eq_true.mp h1) mk hmk
    exact of_decide_eq_true h2
  case isFalse hb => exact absurd h (by simp)

lemma reconstructWrapped_ok {α : Type u} {rows : List (List α)}
    {m : List (List (Option α))} (h : reconstructWrapped rows = .ok m) :
    ∃ m', buildWrapped rows (codeMarkers (rows.map List.length)) = .ok m' ∧
      m = dropNoneCols m' ∧
      ((rows.map List.length).dedup.length = 3 ∨
        (rows.map List.length).dedup.length = 2) := by
  simp only [reconstructWrapped] at h
  by_cases h3 : (rows.map List.length).dedup.length = 3
  · rw [if_pos h3] at h
    rcases hb : buildWrapped rows (singleIdxs (rows.map List.length)) with e | m'
    · rw [hb] at h
      simp [Except.map] at h
    · rw [hb] at h
      simp only [Except.map] at h
      injection h with h'
      exact ⟨m', by rw [codeMarkers, if_pos h3]; exact hb, h'.symm, Or.inl h3⟩
  · rw [if_neg h3] at h
    by_cases h2 : (rows.map List.length).dedup.length = 2
    · rw [if_pos h2] at h
      rcases hb : buildWrapped rows (everySecond (singleIdxs (rows.map List.length)))
        with e | m'
      · rw [hb] at h
        simp [Except.map] at h
      · rw [hb] at h
        simp only [Except.map] at h
        injection h with h'
        exact ⟨m', by rw [codeMarkers, if_neg h3]; exact hb, h'.symm, Or.inr h2⟩
    · rw [if_neg h2] at h
      exact absurd h (by simp)

lemma dropNoneCols_length {α : Type u} (m : List (List (Option α))) :
    (dropNoneCols m).length = m.length := by
  cases m with
  | nil => rfl
  | cons r rs => simp [dropNoneCols]

/-! ### Claim C1: two-class wrapped layout — marker choice and row count -/

/-- C1: with wrap enabled and exactly two distinct token counts, the
depth-marker indices the code uses are every second single-token-line
index starting from the first, and the reconstruction yields
`⌈(number of single-token lines) / 2⌉` logical rows. -/
theorem C1_two_class_markers {α : Type u} (rows : List (List α))
    (m : List (List (Option α)))
    (h2 : (rows.map List.length).dedup.length = 2)
    (hok : reconstructWrapped rows = .ok m) :
    (∀ i, (codeMarkers (rows.map List.length))[i]?
        = (singleIdxs (rows.map List.length))[2 * i]?) ∧
    m.length =
      ((rows.map List.length).countP (fun x => decide (x = 1)) + 1) / 2 := by
  have hcm : codeMarkers (rows.map List.length)
      = everySecond (singleIdxs (rows.map List.length)) := by
    rw [codeMarkers, if_neg (by omega)]
  obtain ⟨m', hb, hm, _⟩ := reconstructWrapped_ok hok
  constructor
  · intro i
    rw [hcm, everySecond_getElem?]
  · obtain ⟨d0, d1, rest, hD, _, hm'⟩ := buildWrapped_ok hb
    have hlen : m'.length = (codeMarkers (rows.map List.length)).length := by
      rw [hm', List.length_map]
    rw [hm, dropNoneCols_length, hlen, hcm, everySecond_length,
      singleIdxs_length]

/-- Witness for C1 on the alternating two-class block `cAltLines`. -/
theorem C1_witness :
    (codeMarkers (cAltRows.map List.length))[0]?
        = (singleIdxs (cAltRows.map List.length))[2 * 0]? ∧
      mC1.length =
        ((cAltRows.map List.length).countP (fun x => decide (x = 1)) + 1) / 2 :=
  ⟨(C1_two_class_markers cAltRows mC1 (by decide) rfl).1 0,
   (C1_two_class_markers cAltRows mC1 (by decide) rfl).2⟩

/-! ### Lemmas on column deletion -/

lemma applyKeep_cons_true {α : Type u} (k : List Bool) (x : Option α)
    (r : List (Option α)) :
    applyKeep (true :: k) (x :: r) = x :: applyKeep k r := by
  simp [applyKeep, List.zip_cons_cons]

lemma applyKeep_cons_false {α : Type u} (k : List Bool) (x : Option α)
    (r : List (Option α)) :
    applyKeep (false :: k) (x :: r) = applyKeep k r := by
  simp [applyKeep, List.zip_cons_cons]

lemma applyKeep_append {α : Type u} {k1 k2 : List Bool}
    {r1 r2 : List (Option α)} (h : k1.length = r1.length) :
    applyKeep (k1 ++ k2) (r1 ++ r2) = applyKeep k1 r1 ++ applyKeep k2 r2 := by
  simp [applyKeep, List.zip_append h, List.filterMap_append]

lemma applyKeep_trues {α : Type u} (r : List (Option α)) :
    applyKeep (List.replicate r.length true) r = r := by
  induction r with
  | nil => rfl
  | cons x r ih =>
    rw [List.length_cons, List.replicate_succ, applyKeep_cons_true, ih]

lemma applyKeep_falses {α : Type u} (n : Nat) :
    ∀ r : List (Option α), applyKeep (List.replicate n false) r = [] := by
  induction n with
  | zero =>
    intro r
    simp [applyKeep]
  | succ k ih =>
    intro r
    cases r with
    | nil => simp [applyKeep]
    | cons x r => rw [List.replicate_succ, applyKeep_cons_false, ih]

lemma map_isSome_map_some {α : Type u} (l : List α) :
    (l.map some).map Option.isSome = List.replicate l.length true := by
  induction l with
  | nil => rfl
  | cons x l ih =>
    simp only [List.map_cons, Option.isSome_some, List.length_cons,
      List.replicate_succ, ih]

lemma pad_isSome {α : Type u} (w : Nat) (r : List α) :
    (pad w r).map Option.isSome
      = List.replicate r.length true ++ List.replicate (w - r.length) false := by
  unfold pad
  rw [List.map_append, map_isSome_map_some, List.map_replicate]
  rfl

lemma pad_length {α : Type u} (w : Nat) (r : List α) (h : r.length ≤ w) :
    (pad w r).length = w := by
  simp [pad]
  omega

lemma applyKeep_pad {α : Type u} {w : Nat} {a b : List α}
    (hab : a.length = b.length) (hw : a.length ≤ w) :
    applyKeep ((pad w a).map Option.isSome) (pad w b) = b.map some := by
  rw [pad_isSome, hab]
  unfold pad
  rw [applyKeep_append (by simp)]
  have h1 : applyKeep (List.replicate b.length true) (b.map some)
      = b.map some := by
    have h := applyKeep_trues (b.map some)
    rwa [List.length_map] at h
  rw [h1, applyKeep_falses, List.append_nil]

lemma applyKeep_blocks {α : Type u} (w : Nat) (A B : Nat → List α) :
    ∀ ds : List Nat,
      (∀ d ∈ ds, (A d).length = (B d).length ∧ (A d).length ≤ w) →
      applyKeep (((ds.map (fun d => pad w (A d))).flatten).map Option.isSome)
          ((ds.map (fun d => pad w (B d))).flatten)
        = ((ds.map B).flatten).map some := by
  intro ds
  induction ds with
  | nil =>
    intro _
    simp [applyKeep]
  | cons d ds ih =>
    intro h
    obtain ⟨hab, hw⟩ := h d (by simp)
    have hds : ∀ x ∈ ds, (A x).length = (B x).length ∧ (A x).length ≤ w :=
      fun x hx => h x (List.mem_cons_of_mem d hx)
    simp only [List.map_cons, List.flatten_cons, List.map_append]
    rw [applyKeep_append (by
      rw [List.length_map, pad_length w (A d) hw,
        pad_length w (B d) (hab ▸ hw)])]
    rw [applyKeep_pad hab hw, ih hds]

lemma applyKeep_row {α : Type u} (w : Nat) (u v : List α)
    (huv : u.length = v.length) (A B : Nat → List α) (ds : List Nat)
    (h : ∀ d ∈ ds, (A d).length = (B d).length ∧ (A d).length ≤ w) :
    applyKeep ((u.map some ++ (ds.map (fun d => pad w (A d))).flatten).map
        Option.isSome)
      (v.map some ++ (ds.map (fun d => pad w (B d))).flatten)
    = (v ++ (ds.map B).flatten).map some := by
  rw [List.map_append]
  rw [applyKeep_append (by
    rw [List.length_map, List.length_map, List.length_map, huv])]
  rw [map_isSome_map_some, huv]
  have h1 : applyKeep (List.replicate v.length true) (v.map some)
      = v.map some := by
    have h' := applyKeep_trues (v.map some)
    rwa [List.length_map] at h'
  rw [h1, applyKeep_blocks w A B ds h, List.map_append]

lemma dropNoneCols_getElem? {α : Type u} (L : List (List (Option α)))
    (r0 : List (Option α)) (hL : L.head? = some r0) (i : Nat) :
    (dropNoneCols L)[i]? = (L[i]?).map (applyKeep (r0.map Option.isSome)) := by
  cases L with
  | nil => simp at hL
  | cons r rs =>
    rw [List.head?_cons] at hL
    injection hL with hr
    subst hr
    have hd : dropNoneCols (r :: rs)
        = (r :: rs).map (applyKeep (r.map Option.isSome)) := rfl
    rw [hd, List.getElem?_map]

lemma map_getD_range'_shift {α : Type u} (rows : List (List α))
    (a s n : Nat) :
    (List.range' (a + s) n).map (fun j => rows.getD j [])
      = (List.range' s n).map (fun d => rows.getD (a + d) []) := by
  rw [List.range'_eq_map_range, List.range'_eq_map_range, List.map_map,
    List.map_map]
  apply List.map_congr_left
  intro x _
  simp only [Function.comp]
  congr 1
  omega

/-! ### Claim C2: wrapped row assembly -/

/-- Counterexample for C2: `cMixRows` is a wrapped block with three
distinct token counts whose depth markers sit at lines 1 and 3.  For the
consecutive marker pair (1, 3) the claim demands the row
`marker token ++ tokens of line 2`, but the reconstruction — which takes
its offsets from the first marker gap and reads through the padded
frame — produces something else. -/
theorem C2_counterexample :
    reconstructWrapped cMixRows = .ok mC2mix ∧
      mC2mix[0]? ≠ some ((cMixRows.getD 1 [] ++ cMixRows.getD 2 []).map some) := by
  constructor
  · rfl
  · decide

/-- C2 amended: when the depth markers sit exactly at lines
`0, g, 2g, …` (first line a marker, uniform gap) and corresponding
continuation lines carry equal token counts across blocks, the logical
row for each consecutive marker pair `(i·g, (i+1)·g)` is the marker's own
token list horizontally concatenated with the token sequences of lines
`i·g + 1 … i·g + (g-1)`, in line order. -/
theorem C2_amended_row_assembly {α : Type u} (rows : List (List α))
    (m : List (List (Option α))) (g : Nat)
    (hok : reconstructWrapped rows = .ok m)
    (hmk : ∀ j < (codeMarkers (rows.map List.length)).length,
        (codeMarkers (rows.map List.length))[j]? = some (j * g))
    (hlen : ∀ j < (codeMarkers (rows.map List.length)).length,
        ∀ d < g, 1 ≤ d →
          (rows.getD (j * g + d) []).length = (rows.getD d []).length) :
    ∀ i, i + 1 < (codeMarkers (rows.map List.length)).length →
      m[i]? = some (((rows.getD (i * g) []) ++
        ((List.range' (i * g + 1) (g - 1)).map
          (fun j => rows.getD j [])).flatten).map some) := by
  intro i hi
  obtain ⟨m', hb, hm, _⟩ := reconstructWrapped_ok hok
  obtain ⟨d0, d1, rest, hD, _, hm'⟩ := buildWrapped_ok hb
  have h0 : d0 = 0 := by
    have h := hmk 0 (by omega)
    rw [hD] at h
    simpa using h
  subst h0
  have h1 : d1 = g := by
    have h := hmk 1 (by omega)
    rw [hD] at h
    simpa using h
  rw [h1] at hD hm'
  have mem0 : (0 : Nat) ∈ codeMarkers (rows.map List.length) := by
    have h := hmk 0 (by omega)
    simpa using List.getElem?_mem h
  have memig : i * g ∈ codeMarkers (rows.map List.length) :=
    List.getElem?_mem (hmk i (by omega))
  have len0 : (rows.getD 0 []).length = 1 := by
    have h := (singleIdxs_mem (codeMarkers_subset_singleIdxs mem0)).2
    rwa [getD_map_length] at h
  have lenig : (rows.getD (i * g) []).length = 1 := by
    have h := (singleIdxs_mem (codeMarkers_subset_singleIdxs memig)).2
    rwa [getD_map_length] at h
  have hhead : m'.head? = some ((rows.getD 0 []).map some ++
      ((List.range' 1 (g - 1)).map
        (fun d => pad (maxLen rows) (rows.getD d []))).flatten) := by
    rw [hm', hD]
    simp
  have hmi : m'[i]? = some ((rows.getD (i * g) []).map some ++
      ((List.range' 1 (g - 1)).map
        (fun d => pad (maxLen rows) (rows.getD (i * g + d) []))).flatten) := by
    rw [hm', List.getElem?_map, hmk i (by omega), Option.map_some']
  rw [hm, dropNoneCols_getElem? m' _ hhead i, hmi, Option.map_some']
  rw [map_getD_range'_shift rows (i * g) 1 (g - 1)]
  refine congrArg some (applyKeep_row (maxLen rows) (rows.getD 0 [])
    (rows.getD (i * g) []) (by rw [len0, lenig])
    (fun d => rows.getD d []) (fun d => rows.getD (i * g + d) [])
    (List.range' 1 (g - 1)) ?_)
  intro d hd
  obtain ⟨hd1, hd2⟩ := List.mem_range'_1.mp hd
  exact ⟨(hlen i (by omega) d (by omega) hd1).symm,
    getD_length_le_maxLen rows d⟩

/-- Witness for the amended C2 on the uniform wrapped block
`cUniformLines` at its first marker pair. -/
theorem C2_witness :
    mC2uniform[0]? = some (((cUniformRows.getD (0 * 3) []) ++
      ((List.range' (0 * 3 + 1) (3 - 1)).map
        (fun j => cUniformRows.getD j [])).flatten).map some) :=
  C2_amended_row_assembly cUniformRows mC2uniform 3 rfl (by decide)
    (by decide) 0 (by decide)

end Petro
